import Mathlib

/-!
Shallow embedding of the NJUBSwatcher repository: src/njubs.py and src/syxg.py,
two variants of a fetch - parse - diff - notify - persist pipeline for a
university homepage watcher.

Python dicts are modeled as insertion-ordered association lists with string
keys: updating an existing key keeps its original position and replaces the
value, a new key is appended at the end (CPython dict semantics).  HTML
parsing (BeautifulSoup) is not embedded; the extraction result is an abstract
parameter of the pipeline functions, since none of the verified logic inspects
the raw document.  Network and SMTP outcomes are explicit input parameters.
-/

namespace NJUBSwatcher

/-! ## Python dict model -/

/-- Lookup in a Python dict modeled as an association list; models d.get(k). -/
def dget {α : Type} : List (String × α) → String → Option α
  | [], _ => none
  | (k0, v) :: d, k => if k0 == k then some v else dget d k

/-- Key membership, models the Python test (k in d). -/
def dmem {α : Type} (d : List (String × α)) (k : String) : Bool :=
  (dget d k).isSome

/-- Models d[k] = v on a Python dict: an existing key keeps its position and
gets the new value; a new key is appended at the end. -/
def dinsert {α : Type} (k : String) (v : α) : List (String × α) → List (String × α)
  | [] => [(k, v)]
  | (k0, v0) :: d => if k0 == k then (k0, v) :: d else (k0, v0) :: dinsert k v d

/-- Models a dict comprehension keyed by key a, iterating l left to right
(later items with an equal key overwrite earlier ones). -/
def dictOf {α : Type} (key : α → String) (l : List α) : List (String × α) :=
  l.foldl (fun d a => dinsert (key a) a d) []

/-- Models d.setdefault(k, []).append(v). -/
def dappend {α : Type} (k : String) (v : α) : List (String × List α) → List (String × List α)
  | [] => [(k, [v])]
  | (k0, vs) :: d => if k0 == k then (k0, vs ++ [v]) :: d else (k0, vs) :: dappend k v d

/-! ## njubs.py : data model -/

/-- One announcement record as built by njubs.py fetch_module:
results.append({"title": title, "url": href}). -/
structure NRec where
  title : String
  url : String
deriving DecidableEq, Repr

/-- A snapshot: the Python dict mapping module name to record list. -/
abbrev NSnapshot := List (String × List NRec)

/-- old.get(module, []) as used by njubs.py diff_snapshots. -/
def nget (s : NSnapshot) (m : String) : List NRec :=
  (dget s m).getD []

/-- MODULE_IDS from njubs.py (insertion order of the configuration dict). -/
def MODULE_IDS : List (String × String) :=
  [("latest_updates", "wp_news_w46"),
   ("notices", "wp_news_w47"),
   ("events", "wp_news_w48"),
   ("procurement", "wp_news_w100"),
   ("viewpoints", "wp_news_w49"),
   ("announcements", "wp_news_w110")]

/-- Per-module diff result of njubs.py diff_snapshots. -/
structure NDiff where
  added : List NRec
  removed : List NRec
  changed : List (NRec × NRec)
deriving DecidableEq, Repr

/-- njubs.py diff_snapshots, one module (lines 143-151): index both sides by
url (dict comprehension, last record per url wins), added and removed are
value lists of the key filters, changed compares titles of records whose url
is on both sides, iterating the keys of the new-side dict. -/
def ndiffModule (old new : List NRec) : NDiff :=
  let old_items := dictOf (fun r => r.url) old
  let new_items := dictOf (fun r => r.url) new
  { added := (new_items.filter (fun p => !dmem old_items p.1)).map Prod.snd
    removed := (old_items.filter (fun p => !dmem new_items p.1)).map Prod.snd
    changed := new_items.filterMap (fun p =>
      match dget old_items p.1 with
      | some o => if o.title != p.2.title then some (o, p.2) else none
      | none => none) }

/-- njubs.py diff_snapshots (lines 140-153): iterate the configured modules;
a module missing from a snapshot contributes an empty list. -/
def diff_snapshots (old new : NSnapshot) : List (String × NDiff) :=
  MODULE_IDS.map (fun p => (p.1, ndiffModule (nget old p.1) (nget new p.1)))

/-- The condition (added or removed or changed) from njubs.py. -/
def nonempty_diff (d : NDiff) : Bool :=
  !(d.added.isEmpty && d.removed.isEmpty && d.changed.isEmpty)

/-- njubs.py summarize_diffs (lines 155-168). -/
def summarize_diffs (diffs : List (String × NDiff)) : String :=
  let lines := diffs.foldl (fun acc p =>
    if nonempty_diff p.2 then
      acc ++ ["\n### " ++ p.1 ++ " ###"]
        ++ p.2.added.map (fun it => "+ " ++ it.title ++ " " ++ it.url)
        ++ p.2.removed.map (fun it => "- " ++ it.title ++ " " ++ it.url)
        ++ p.2.changed.map (fun q =>
            "* " ++ q.1.title ++ " -> " ++ q.2.title ++ " " ++ q.2.url)
    else acc) []
  String.intercalate "\n" lines

/-- The per-module body string built in njubs.py main (line 225); ts models
time.strftime and is an input of the run. -/
def module_body (ts : String) (m : String) (info : NDiff) : String :=
  "### " ++ m ++ " 更新 (" ++ ts ++ ") ###\n" ++ summarize_diffs [(m, info)]

/-- njubs.py main, lines 218-229: build user_recipients, the dict mapping each
recipient to the list of bodies of the changed modules it subscribes to.  The
subscriptions argument models MODULE_SUBSCRIPTIONS.get(mod, []). -/
def build_user_recipients (subs : String → List String) (ts : String)
    (diffs : List (String × NDiff)) : List (String × List String) :=
  diffs.foldl (fun ur p =>
    if nonempty_diff p.2 then
      (subs p.1).foldl (fun ur2 r => dappend r (module_body ts p.1 p.2) ur2) ur
    else ur) []

/-- njubs.py send_email_combined (lines 170-189), success-and-failure model:
each recipient of user_recipients gets one message whose body joins its parts
with a blank line.  failAt models the SMTP outcome: none means every send
succeeds; some n means the n-th sendmail (or, for n = 0, the login) raises,
the surrounding except swallows the error, and only the earlier messages were
delivered.  The returned list is the list of delivered (recipient, body)
pairs. -/
def send_email_combined (failAt : Option Nat)
    (user_recipients : List (String × List String)) : List (String × String) :=
  let all := user_recipients.map (fun p => (p.1, String.intercalate "\n\n" p.2))
  match failAt with
  | none => all
  | some n => all.take n

/-- Observable outcome of one njubs.py main invocation past the fetch:
delivered messages, whether save_snapshot ran, and the resulting content of
the snapshot file. -/
structure NMainResult where
  messages : List (String × String)
  wrote : Bool
  persisted : NSnapshot
deriving DecidableEq, Repr

/-- njubs.py main, lines 213-242, given the already loaded old snapshot and
the fetched new snapshot: if user_recipients is nonempty, send and persist;
otherwise persist only when the old snapshot dict is empty (first run). -/
def njubs_main (subs : String → List String) (ts : String) (failAt : Option Nat)
    (old_snapshot new_snapshot : NSnapshot) : NMainResult :=
  let diffs := diff_snapshots old_snapshot new_snapshot
  let user_recipients := build_user_recipients subs ts diffs
  if !user_recipients.isEmpty then
    { messages := send_email_combined failAt user_recipients
      wrote := true
      persisted := new_snapshot }
  else if old_snapshot.isEmpty then
    { messages := [], wrote := true, persisted := new_snapshot }
  else
    { messages := [], wrote := false, persisted := old_snapshot }

/-- njubs.py get_page (lines 84-96): on requests.exceptions.RequestException
the except clause prints and returns the empty string; response none models a
raised RequestException for that HTTP request. -/
def get_page_njubs (response : Option String) : String :=
  match response with
  | some text => text
  | none => ""

/-- njubs.py fetch_module (lines 102-120): performs its own get_page call (one
HTTP request), returns [] when the page text is empty, otherwise the parsed
records.  net gives the outcome of the c-th HTTP request of the run; parse
abstracts the BeautifulSoup extraction (document to module id to records).
Returns the records together with the updated request count. -/
def fetch_module (parse : String → String → List NRec) (net : Nat → Option String)
    (module_id : String) (c : Nat) : List NRec × Nat :=
  let html := get_page_njubs (net c)
  (if html == "" then [] else parse html module_id, c + 1)

/-- Loop body of njubs.py fetch_all_modules over the configured modules. -/
def fetch_all_modules_aux (parse : String → String → List NRec)
    (net : Nat → Option String) : List (String × String) → Nat → NSnapshot × Nat
  | [], c => ([], c)
  | p :: rest, c =>
    let r1 := fetch_module parse net p.2 c
    let r2 := fetch_all_modules_aux parse net rest r1.2
    ((p.1, r1.1) :: r2.1, r2.2)

/-- njubs.py fetch_all_modules (lines 122-127): one fetch_module call per
configured module; also counts the HTTP requests issued. -/
def fetch_all_modules (parse : String → String → List NRec)
    (net : Nat → Option String) : NSnapshot × Nat :=
  fetch_all_modules_aux parse net MODULE_IDS 0

/-- Observable outcome of a whole njubs.py run, fetch included. -/
structure NRunResult where
  fetches : Nat
  messages : List (String × String)
  wrote : Bool
  persisted : NSnapshot
deriving DecidableEq, Repr

/-- njubs.py main (lines 206-242) end to end: fetch_all_modules, then the
diff / notify / persist logic.  The try around fetch_all_modules in the source
never fires for network errors because get_page already swallows them. -/
def njubs_run (parse : String → String → List NRec) (net : Nat → Option String)
    (subs : String → List String) (ts : String) (failAt : Option Nat)
    (old_snapshot : NSnapshot) : NRunResult :=
  let f := fetch_all_modules parse net
  let m := njubs_main subs ts failAt old_snapshot f.1
  { fetches := f.2, messages := m.messages, wrote := m.wrote, persisted := m.persisted }

/-- File system state of the snapshot file: none = absent, some none = present
but not valid JSON, some (some s) = present and deserializes to s. -/
abbrev FileState (σ : Type) := Option (Option σ)

/-- njubs.py load_snapshot (lines 129-134): a bare except returns the empty
dict on any failure, absent file and malformed content alike. -/
def load_snapshot_njubs (file : FileState NSnapshot) : NSnapshot :=
  match file with
  | some (some s) => s
  | _ => []

/-! ## syxg.py : data model -/

/-- One record as built by syxg.py parse_modules:
{"title": ..., "href": ..., "date": ..., "hash": ...}. -/
structure SRec where
  title : String
  href : String
  date : String
  hash : String
deriving DecidableEq, Repr

abbrev SSnapshot := List (String × List SRec)

/-- old.get(mod, []) as used by syxg.py diff_snapshots. -/
def sget (s : SSnapshot) (m : String) : List SRec :=
  (dget s m).getD []

/-- MODULE_NAMES from syxg.py. -/
def MODULE_NAMES : List String := ["通知公告", "就业招聘", "规则流程", "风采展示"]

/-- The sha256 digest of title||href||date computed in syxg.py parse_modules,
modeled by its preimage string: the code uses the digest only through equality
tests, which the preimage decides the same way (collision freeness of sha256
assumed, as the source does). -/
def item_hash (title href date : String) : String :=
  title ++ "||" ++ href ++ "||" ++ date

/-- Per-module diff result of syxg.py diff_snapshots. -/
structure SDiff where
  added : List SRec
  removed : List SRec
  changed : List (SRec × SRec)
deriving DecidableEq, Repr

/-- syxg.py diff_snapshots, one module (lines 100-112).  added and removed
come from hash-keyed dicts and a Python set difference; the iteration order of
a Python set of strings is not determined by the inputs (string hashing is
seed-randomized across processes), so the embedding takes the order the
runtime happens to use as the extra argument enum, a reordering of the key
list.  changed ignores enum: it iterates the raw new-side list and pairs by
href against a last-wins href-keyed dict of the old side, reporting pairs with
a differing title or date. -/
def sdiffModuleEnum (enum : List String → List String)
    (old_list new_list : List SRec) : SDiff :=
  let old_map := dictOf (fun r => r.hash) old_list
  let new_map := dictOf (fun r => r.hash) new_list
  let addKeys := enum ((new_map.map Prod.fst).filter (fun h => !dmem old_map h))
  let remKeys := enum ((old_map.map Prod.fst).filter (fun h => !dmem new_map h))
  let old_by_href := dictOf (fun r => r.href) old_list
  { added := addKeys.filterMap (fun h => dget new_map h)
    removed := remKeys.filterMap (fun h => dget old_map h)
    changed := new_list.filterMap (fun it =>
      match dget old_by_href it.href with
      | some oh => if oh.title != it.title || oh.date != it.date
                   then some (oh, it) else none
      | none => none) }

/-- syxg.py diff_snapshots with the set iteration order fixed to first
insertion order; membership in added / removed and the changed list do not
depend on that choice. -/
def sdiffModule (old_list new_list : List SRec) : SDiff :=
  sdiffModuleEnum id old_list new_list

/-- syxg.py diff_snapshots (lines 97-113) over the configured modules. -/
def diff_snapshots_syxg (old new : SSnapshot) : List (String × SDiff) :=
  MODULE_NAMES.map (fun m => (m, sdiffModule (sget old m) (sget new m)))

/-- The per-module condition (added or removed or changed) from syxg.py
summarize_diffs. -/
def snonempty (d : SDiff) : Bool :=
  !(d.added.isEmpty && d.removed.isEmpty && d.changed.isEmpty)

/-- has_change as computed by syxg.py summarize_diffs (lines 135-159): true
iff some module diff is nonempty. -/
def has_change (diffs : List (String × SDiff)) : Bool :=
  diffs.any (fun p => snonempty p.2)

/-- Observable outcome of one syxg.py main invocation. -/
structure SResult where
  fetches : Nat
  notified : Bool
  wrote : Bool
  persisted : SSnapshot
deriving DecidableEq, Repr

/-- syxg.py main (lines 164-189): get_page raises on failure and main catches
and returns with no state change (net none); otherwise diff, and when
has_change holds, save_snapshot first and then try send_email, whose failure
(sendFails) or incomplete configuration (emailCfgOk false) is logged and
ignored; when nothing changed, save only if the old snapshot dict is empty. -/
def syxg_run (net : Option String) (parse : String → SSnapshot)
    (emailCfgOk : Bool) (sendFails : Bool) (old_snapshot : SSnapshot) : SResult :=
  match net with
  | none => { fetches := 1, notified := false, wrote := false, persisted := old_snapshot }
  | some html =>
    let new_snapshot := parse html
    let diffs := diff_snapshots_syxg old_snapshot new_snapshot
    if has_change diffs then
      { fetches := 1, notified := emailCfgOk && !sendFails
        wrote := true, persisted := new_snapshot }
    else if old_snapshot.isEmpty then
      { fetches := 1, notified := false, wrote := true, persisted := new_snapshot }
    else
      { fetches := 1, notified := false, wrote := false, persisted := old_snapshot }

/-- syxg.py load_snapshot (lines 87-91): an absent file yields the empty dict,
but a present file is passed to json.load with no handler, so malformed
content raises out of load_snapshot (and out of main, which calls it outside
any try). -/
def load_snapshot_syxg (file : FileState SSnapshot) : Except String SSnapshot :=
  match file with
  | none => Except.ok []
  | some none => Except.error "JSONDecodeError"
  | some (some s) => Except.ok s

/-- The parts list a recipient should end with: one module_body for every
changed module it subscribes to, in diff order (used to state claim C6). -/
def expected_parts (subs : String → List String) (ts : String)
    (diffs : List (String × NDiff)) (r : String) : List String :=
  (diffs.filter (fun p => nonempty_diff p.2 && (subs p.1).contains r)).map
    (fun p => module_body ts p.1 p.2)
/-- Helper for stating lookups after repeated dappend. -/
def combine {α : Type} (o : Option (List α)) (ys : List α) : Option (List α) :=
  match o with
  | some xs => some (xs ++ ys)
  | none => if ys.isEmpty then none else some ys

/-- The parts list build_user_recipients accumulates for recipient r, with
multiplicity when a subscription list repeats r. -/
def gen_parts (subs : String → List String) (ts : String)
    (diffs : List (String × NDiff)) (r : String) : List String :=
  match diffs with
  | [] => []
  | p :: rest =>
    (if nonempty_diff p.2 then
      List.replicate ((subs p.1).count r) (module_body ts p.1 p.2)
     else []) ++ gen_parts subs ts rest r

/-! ## Lemmas about the dict model -/

theorem dget_dinsert {α : Type} (k k' : String) (v : α) (d : List (String × α)) :
    dget (dinsert k v d) k' = if k == k' then some v else dget d k' := by
  induction d with
  | nil => simp [dinsert, dget]
  | cons p d ih =>
    obtain ⟨k0, v0⟩ := p
    cases hb : (k0 == k) with
    | true =>
      have hk : k0 = k := by simpa using hb
      subst hk
      simp only [dinsert, hb, if_true, dget]
      cases hb2 : (k0 == k') with
      | true =>
        have : k0 = k' := by simpa using hb2
        simp [this]
      | false =>
        have : ¬k0 = k' := by simpa using hb2
        simp [this]
    | false =>
      simp only [dinsert, hb, if_false, dget]
      cases hb2 : (k0 == k') with
      | true =>
        have hk2 : k0 = k' := by simpa using hb2
        have hne : ¬(k == k') = true := by
          simp
          intro he
          rw [he, ← hk2] at hb
          simp at hb
        simp [hne]
      | false => simp [ih]

theorem dmem_dinsert {α : Type} (k k' : String) (v : α) (d : List (String × α)) :
    dmem (dinsert k v d) k' = ((k == k') || dmem d k') := by
  rw [dmem, dget_dinsert]
  cases hb : (k == k') <;> simp [hb, dmem]

theorem dget_foldl_dinsert {α : Type} (key : α → String) (l : List α) :
    ∀ (d : List (String × α)) (k : String),
      dget (l.foldl (fun d a => dinsert (key a) a d) d) k =
        l.foldl (fun acc a => if key a == k then some a else acc) (dget d k) := by
  induction l with
  | nil => intro d k; rfl
  | cons a l ih =>
    intro d k
    simp only [List.foldl_cons]
    rw [ih, dget_dinsert]

theorem dget_dictOf {α : Type} (key : α → String) (l : List α) (k : String) :
    dget (dictOf key l) k =
      l.foldl (fun acc a => if key a == k then some a else acc) none := by
  rw [dictOf, dget_foldl_dinsert]
  rfl

theorem isSome_foldl_lastMatch {α : Type} (key : α → String) (k : String) (l : List α) :
    ∀ (o : Option α),
      (l.foldl (fun acc a => if key a == k then some a else acc) o).isSome =
        (o.isSome || l.any (fun a => key a == k)) := by
  induction l with
  | nil => intro o; simp
  | cons a l ih =>
    intro o
    simp only [List.foldl_cons, List.any_cons]
    rw [ih]
    cases hb : (key a == k) <;> simp [hb]

theorem dmem_dictOf {α : Type} (key : α → String) (l : List α) (k : String) :
    dmem (dictOf key l) k = l.any (fun a => key a == k) := by
  rw [dmem, dget_dictOf, isSome_foldl_lastMatch]
  rfl

theorem mem_dinsert {α : Type} {p : String × α} {k : String} {v : α}
    {d : List (String × α)} (h : p ∈ dinsert k v d) : p = (k, v) ∨ p ∈ d := by
  induction d with
  | nil =>
    simp [dinsert] at h
    simp [h]
  | cons q d ih =>
    obtain ⟨k0, v0⟩ := q
    cases hb : (k0 == k) with
    | true =>
      have hk : k0 = k := by simpa using hb
      subst hk
      simp only [dinsert, hb, if_true] at h
      rcases List.mem_cons.mp h with h | h
      · left; simp [h]
      · right; exact List.mem_cons.mpr (Or.inr h)
    | false =>
      simp only [dinsert, hb, if_false] at h
      rcases List.mem_cons.mp h with h | h
      · right; exact List.mem_cons.mpr (Or.inl h)
      · rcases ih h with h2 | h2
        · left; exact h2
        · right; exact List.mem_cons.mpr (Or.inr h2)

theorem mem_foldl_dinsert {α : Type} (key : α → String) (l : List α) :
    ∀ (d : List (String × α)) (q : String × α),
      q ∈ l.foldl (fun d a => dinsert (key a) a d) d →
      q ∈ d ∨ ∃ a ∈ l, q = (key a, a) := by
  induction l with
  | nil => intro d q h; left; exact h
  | cons a l ih =>
    intro d q h
    simp only [List.foldl_cons] at h
    rcases ih _ q h with h2 | h2
    · rcases mem_dinsert h2 with h3 | h3
      · right; exact ⟨a, by simp, h3⟩
      · left; exact h3
    · obtain ⟨b, hb, hq⟩ := h2
      right; exact ⟨b, by simp [hb], hq⟩

theorem mem_dictOf {α : Type} {key : α → String} {l : List α} {q : String × α}
    (h : q ∈ dictOf key l) : ∃ a ∈ l, q = (key a, a) := by
  rcases mem_foldl_dinsert key l [] q h with h2 | h2
  · simp at h2
  · exact h2

theorem dmem_of_key_mem {α : Type} {d : List (String × α)} {k : String}
    (h : k ∈ d.map Prod.fst) : dmem d k = true := by
  induction d with
  | nil => simp at h
  | cons q d ih =>
    obtain ⟨k0, v0⟩ := q
    rw [List.map_cons, List.mem_cons] at h
    rcases h with h | h
    · subst h
      simp [dmem, dget]
    · cases hb : (k0 == k) with
      | true => simp [dmem, dget, hb]
      | false =>
        have h2 := ih h
        rw [dmem] at h2 ⊢
        simp only [dget, hb, Bool.false_eq_true, if_false]
        exact h2

theorem keys_dinsert {α : Type} (k : String) (v : α) (d : List (String × α)) :
    (dinsert k v d).map Prod.fst =
      if dmem d k then d.map Prod.fst else d.map Prod.fst ++ [k] := by
  induction d with
  | nil => simp [dinsert, dmem, dget]
  | cons q d ih =>
    obtain ⟨k0, v0⟩ := q
    cases hb : (k0 == k) with
    | true => simp [dinsert, hb, dmem, dget]
    | false =>
      have hstep : dinsert k v ((k0, v0) :: d) = (k0, v0) :: dinsert k v d := by
        simp [dinsert, hb]
      have hmem : dmem ((k0, v0) :: d) k = dmem d k := by
        simp [dmem, dget, hb]
      rw [hstep, List.map_cons, ih, hmem]
      cases hm : dmem d k <;> simp

theorem keys_nodup_dinsert {α : Type} {k : String} {v : α} {d : List (String × α)}
    (h : (d.map Prod.fst).Nodup) : ((dinsert k v d).map Prod.fst).Nodup := by
  rw [keys_dinsert]
  cases hm : dmem d k with
  | true => simpa using h
  | false =>
    simp only [Bool.false_eq_true, if_false]
    rw [List.nodup_append]
    refine ⟨h, by simp, ?_⟩
    intro x hx
    simp only [List.mem_singleton]
    intro hxk
    subst hxk
    rw [dmem_of_key_mem hx] at hm
    exact Bool.noConfusion hm

theorem keys_nodup_foldl {α : Type} (key : α → String) (l : List α) :
    ∀ (d : List (String × α)), (d.map Prod.fst).Nodup →
      ((l.foldl (fun d a => dinsert (key a) a d) d).map Prod.fst).Nodup := by
  induction l with
  | nil => intro d h; exact h
  | cons a l ih =>
    intro d h
    simp only [List.foldl_cons]
    exact ih _ (keys_nodup_dinsert h)

theorem keys_nodup_dictOf {α : Type} (key : α → String) (l : List α) :
    ((dictOf key l).map Prod.fst).Nodup :=
  keys_nodup_foldl key l [] (by simp)

theorem dget_of_mem_nodup {α : Type} {d : List (String × α)} {k : String} {v : α}
    (hn : (d.map Prod.fst).Nodup) (h : (k, v) ∈ d) : dget d k = some v := by
  induction d with
  | nil => simp at h
  | cons q d ih =>
    obtain ⟨k0, v0⟩ := q
    rw [List.map_cons, List.nodup_cons] at hn
    rcases List.mem_cons.mp h with h | h
    · injection h with h1 h2
      subst h1
      subst h2
      simp [dget]
    · have hk : ¬(k0 == k) = true := by
        simp only [beq_iff_eq]
        intro he
        subst he
        exact hn.1 (List.mem_map.mpr ⟨(k0, v), h, rfl⟩)
      rw [dget, if_neg hk]
      exact ih hn.2 h

theorem dinsert_of_dget_none {α : Type} {d : List (String × α)} {k : String} (v : α)
    (h : dget d k = none) : dinsert k v d = d ++ [(k, v)] := by
  induction d with
  | nil => rfl
  | cons q d ih =>
    obtain ⟨k0, v0⟩ := q
    cases hb : (k0 == k) with
    | true =>
      rw [dget] at h
      simp [hb] at h
    | false =>
      rw [dget] at h
      simp only [hb, Bool.false_eq_true, if_false] at h
      simp [dinsert, hb, ih h]

theorem dictOf_of_nodup {α : Type} (key : α → String) (l : List α)
    (h : (l.map key).Nodup) : dictOf key l = l.map (fun a => (key a, a)) := by
  induction l using List.reverseRecOn with
  | nil => rfl
  | append_singleton l a ih =>
    rw [List.map_append, List.nodup_append] at h
    obtain ⟨h1, _, h3⟩ := h
    have hstep : dictOf key (l ++ [a]) = dinsert (key a) a (dictOf key l) := by
      rw [dictOf, dictOf, List.foldl_append]
      rfl
    have hnone : dget (dictOf key l) (key a) = none := by
      have hmem : dmem (dictOf key l) (key a) = false := by
        rw [dmem_dictOf]
        rw [List.any_eq_false]
        intro b hb
        simp only [beq_iff_eq]
        intro he
        exact h3 (List.mem_map.mpr ⟨b, hb, rfl⟩) (by simp [he])
      rw [dmem] at hmem
      exact Option.not_isSome_iff_eq_none.mp (by simp [hmem])
    rw [ih h1] at hnone
    rw [hstep, ih h1, dinsert_of_dget_none _ hnone, List.map_append]
    simp

-- last record with a given key wins
theorem dget_dictOf_append_last {α : Type} (key : α → String) (l : List α) (a : α) :
    dget (dictOf key (l ++ [a])) (key a) = some a := by
  rw [dget_dictOf, List.foldl_append]
  simp

-- njubs differ on identical inputs is empty
theorem ndiff_self (l : List NRec) : ndiffModule l l = ⟨[], [], []⟩ := by
  rw [ndiffModule]
  have hfilter : ∀ p ∈ dictOf (fun r : NRec => r.url) l,
      (!dmem (dictOf (fun r : NRec => r.url) l) p.1) = false := by
    intro p hp
    obtain ⟨a, ha, hq⟩ := mem_dictOf hp
    subst hq
    rw [dmem_dictOf]
    have : l.any (fun b => b.url == a.url) = true :=
      List.any_eq_true.mpr ⟨a, ha, by simp⟩
    simp [this]
  have h1 : (dictOf (fun r : NRec => r.url) l).filter
      (fun p => !dmem (dictOf (fun r : NRec => r.url) l) p.1) = [] := by
    rw [List.filter_eq_nil_iff]
    intro p hp
    simp [hfilter p hp]
  have h2 : (dictOf (fun r : NRec => r.url) l).filterMap (fun p =>
      match dget (dictOf (fun r : NRec => r.url) l) p.1 with
      | some o => if o.title != p.2.title then some (o, p.2) else none
      | none => none) = [] := by
    rw [List.filterMap_eq_nil_iff]
    intro p hp
    have := dget_of_mem_nodup (keys_nodup_dictOf _ l) (show (p.1, p.2) ∈ _ from hp)
    rw [this]
    simp
  simp only [h1, h2, List.map_nil]

theorem filter_not_dmem_self {α : Type} (d : List (String × α)) :
    (d.map Prod.fst).filter (fun k => !dmem d k) = [] := by
  rw [List.filter_eq_nil_iff]
  intro k hk
  simp [dmem_of_key_mem hk]

theorem sdiff_self_added_removed (l : List SRec) :
    (sdiffModule l l).added = [] ∧ (sdiffModule l l).removed = [] := by
  constructor <;>
    simp [sdiffModule, sdiffModuleEnum, filter_not_dmem_self]

theorem mem_of_dget {α : Type} {d : List (String × α)} {k : String} {v : α}
    (h : dget d k = some v) : (k, v) ∈ d := by
  induction d with
  | nil => simp [dget] at h
  | cons q d ih =>
    obtain ⟨k0, v0⟩ := q
    rw [dget] at h
    cases hb : (k0 == k) with
    | true =>
      have hk : k0 = k := by simpa using hb
      rw [hb] at h
      simp at h
      subst hk
      subst h
      exact List.mem_cons_self _ _
    | false =>
      rw [hb] at h
      simp at h
      exact List.mem_cons_of_mem _ (ih h)

theorem dget_dappend_self {α : Type} (k : String) (v : α) (d : List (String × List α)) :
    dget (dappend k v d) k = some (((dget d k).getD []) ++ [v]) := by
  induction d with
  | nil => simp [dappend, dget]
  | cons q d ih =>
    obtain ⟨k0, vs⟩ := q
    cases hb : (k0 == k) with
    | true => simp [dappend, hb, dget]
    | false => simp [dappend, hb, dget, ih]

theorem dget_dappend_ne {α : Type} {k x : String} (v : α) (d : List (String × List α))
    (hne : ¬x = k) : dget (dappend k v d) x = dget d x := by
  induction d with
  | nil =>
    have : (k == x) = false := by simp; exact fun he => hne he.symm
    simp [dappend, dget, this]
  | cons q d ih =>
    obtain ⟨k0, vs⟩ := q
    cases hb : (k0 == k) with
    | true =>
      have hk : k0 = k := by simpa using hb
      subst hk
      have hbx : (k0 == x) = false := by simp; exact fun he => hne he.symm
      simp [dappend, hb, dget, hbx]
    | false =>
      cases hbx : (k0 == x) with
      | true => simp [dappend, hb, dget, hbx]
      | false => simp [dappend, hb, dget, hbx, ih]

theorem dappend_isEmpty {α : Type} (k : String) (v : α) (d : List (String × List α)) :
    (dappend k v d).isEmpty = false := by
  cases d with
  | nil => rfl
  | cons q d =>
    obtain ⟨k0, vs⟩ := q
    rw [dappend]
    split <;> rfl

theorem keys_dappend {α : Type} (k : String) (v : α) (d : List (String × List α)) :
    (dappend k v d).map Prod.fst =
      if dmem d k then d.map Prod.fst else d.map Prod.fst ++ [k] := by
  induction d with
  | nil => simp [dappend, dmem, dget]
  | cons q d ih =>
    obtain ⟨k0, vs⟩ := q
    cases hb : (k0 == k) with
    | true => simp [dappend, hb, dmem, dget]
    | false =>
      have hstep : dappend k v ((k0, vs) :: d) = (k0, vs) :: dappend k v d := by
        simp [dappend, hb]
      have hmem : dmem ((k0, vs) :: d) k = dmem d k := by
        simp [dmem, dget, hb]
      rw [hstep, List.map_cons, ih, hmem]
      cases hm : dmem d k <;> simp

theorem keys_nodup_dappend {α : Type} {k : String} {v : α} {d : List (String × List α)}
    (h : (d.map Prod.fst).Nodup) : ((dappend k v d).map Prod.fst).Nodup := by
  rw [keys_dappend]
  cases hm : dmem d k with
  | true => simpa using h
  | false =>
    simp only [Bool.false_eq_true, if_false]
    rw [List.nodup_append]
    refine ⟨h, by simp, ?_⟩
    intro x hx
    simp only [List.mem_singleton]
    intro hxk
    subst hxk
    rw [dmem_of_key_mem hx] at hm
    exact Bool.noConfusion hm

theorem combine_nil {α : Type} (o : Option (List α)) : combine o [] = o := by
  cases o <;> simp [combine]

theorem combine_assoc {α : Type} (o : Option (List α)) (ys zs : List α) :
    combine (combine o ys) zs = combine o (ys ++ zs) := by
  cases o with
  | some xs => simp [combine]
  | none =>
    cases ys with
    | nil => simp [combine]
    | cons y ys => simp [combine]

theorem dget_foldl_dappend {α : Type} (b : α) (rs : List String) :
    ∀ (ur : List (String × List α)) (x : String),
      dget (rs.foldl (fun u r => dappend r b u) ur) x =
        combine (dget ur x) (List.replicate (rs.count x) b) := by
  induction rs with
  | nil =>
    intro ur x
    simp [combine_nil]
  | cons r rs ih =>
    intro ur x
    simp only [List.foldl_cons]
    rw [ih]
    by_cases hx : x = r
    · subst hx
      rw [dget_dappend_self]
      have hc : (x :: rs).count x = rs.count x + 1 := by
        simp [List.count_cons]
      rw [hc]
      cases ho : dget ur x with
      | some xs => simp [combine, List.replicate_succ]
      | none => simp [combine, List.replicate_succ]
    · rw [dget_dappend_ne _ _ hx]
      have hc : (r :: rs).count x = rs.count x := by
        simp [List.count_cons]
        intro he
        exact absurd he.symm hx
      rw [hc]

/-! ## Lemmas about the pipeline functions -/

theorem dget_build_loop (subs : String → List String) (ts : String)
    (diffs : List (String × NDiff)) :
    ∀ (acc : List (String × List String)) (x : String),
      dget (diffs.foldl (fun ur p =>
        if nonempty_diff p.2 then
          (subs p.1).foldl (fun ur2 r => dappend r (module_body ts p.1 p.2) ur2) ur
        else ur) acc) x =
      combine (dget acc x) (gen_parts subs ts diffs x) := by
  induction diffs with
  | nil =>
    intro acc x
    simp [gen_parts, combine_nil]
  | cons p rest ih =>
    intro acc x
    simp only [List.foldl_cons]
    cases hne : nonempty_diff p.2 with
    | true =>
      simp only [hne, if_true]
      rw [ih, dget_foldl_dappend, combine_assoc]
      rw [gen_parts, hne]
      simp
    | false =>
      simp only [hne, Bool.false_eq_true, if_false]
      rw [ih, gen_parts, hne]
      simp

theorem dget_build_user_recipients (subs : String → List String) (ts : String)
    (diffs : List (String × NDiff)) (x : String) :
    dget (build_user_recipients subs ts diffs) x =
      combine none (gen_parts subs ts diffs x) := by
  rw [build_user_recipients, dget_build_loop]
  rfl

theorem keys_nodup_build (subs : String → List String) (ts : String)
    (diffs : List (String × NDiff)) :
    ((build_user_recipients subs ts diffs).map Prod.fst).Nodup := by
  rw [build_user_recipients]
  have hinner : ∀ (rs : List String) (b : String) (acc : List (String × List String)),
      (acc.map Prod.fst).Nodup →
      ((rs.foldl (fun u r => dappend r b u) acc).map Prod.fst).Nodup := by
    intro rs b
    induction rs with
    | nil => intro acc h; exact h
    | cons r rs ih =>
      intro acc h
      simp only [List.foldl_cons]
      exact ih _ (keys_nodup_dappend h)
  have houter : ∀ (ds : List (String × NDiff)) (acc : List (String × List String)),
      (acc.map Prod.fst).Nodup →
      ((ds.foldl (fun ur p =>
        if nonempty_diff p.2 then
          (subs p.1).foldl (fun ur2 r => dappend r (module_body ts p.1 p.2) ur2) ur
        else ur) acc).map Prod.fst).Nodup := by
    intro ds
    induction ds with
    | nil => intro acc h; exact h
    | cons p rest ih =>
      intro acc h
      simp only [List.foldl_cons]
      cases hne : nonempty_diff p.2 with
      | true =>
        simp only [hne, if_true]
        exact ih _ (hinner _ _ _ h)
      | false =>
        simp only [hne, Bool.false_eq_true, if_false]
        exact ih _ h
  exact houter diffs [] (by simp)

theorem gen_parts_of_nodup (subs : String → List String) (ts : String)
    (diffs : List (String × NDiff)) (r : String)
    (h : ∀ m, (subs m).Nodup) :
    gen_parts subs ts diffs r = expected_parts subs ts diffs r := by
  induction diffs with
  | nil => rfl
  | cons p rest ih =>
    rw [gen_parts, expected_parts, List.filter_cons]
    cases hne : nonempty_diff p.2 with
    | true =>
      by_cases hr : r ∈ subs p.1
      · have hcount : (subs p.1).count r = 1 := List.count_eq_one_of_mem (h p.1) hr
        have hcont : (subs p.1).contains r = true := List.elem_eq_true_of_mem hr
        simp only [hne, hcount, hcont, Bool.and_self, if_true, List.replicate_one,
          List.map_cons]
        rw [expected_parts] at ih
        simp [ih]
      · have hcount : (subs p.1).count r = 0 := by
          rw [List.count_eq_zero]
          exact hr
        have hcont : (subs p.1).contains r = false := by
          cases hc : (subs p.1).contains r with
          | false => rfl
          | true => exact absurd (List.mem_of_elem_eq_true hc) hr
        simp only [hne, hcount, hcont, Bool.and_false, List.replicate_zero, if_true,
          List.nil_append]
        rw [expected_parts] at ih
        simp [ih]
    | false =>
      simp only [hne, Bool.false_eq_true, if_false, Bool.false_and, List.nil_append]
      rw [expected_parts] at ih
      simp [ih]

theorem build_isEmpty (subs : String → List String) (ts : String)
    (diffs : List (String × NDiff)) :
    (build_user_recipients subs ts diffs).isEmpty =
      !diffs.any (fun p => nonempty_diff p.2 && !(subs p.1).isEmpty) := by
  rw [build_user_recipients]
  have hinner : ∀ (rs : List String) (b : String) (acc : List (String × List String)),
      (rs.foldl (fun u r => dappend r b u) acc).isEmpty = (acc.isEmpty && rs.isEmpty) := by
    intro rs b
    induction rs with
    | nil => intro acc; simp
    | cons r rs ih =>
      intro acc
      simp only [List.foldl_cons]
      rw [ih, dappend_isEmpty]
      simp
  have houter : ∀ (ds : List (String × NDiff)) (acc : List (String × List String)),
      (ds.foldl (fun ur p =>
        if nonempty_diff p.2 then
          (subs p.1).foldl (fun ur2 r => dappend r (module_body ts p.1 p.2) ur2) ur
        else ur) acc).isEmpty =
      (acc.isEmpty && !ds.any (fun p => nonempty_diff p.2 && !(subs p.1).isEmpty)) := by
    intro ds
    induction ds with
    | nil => intro acc; simp
    | cons p rest ih =>
      intro acc
      simp only [List.foldl_cons, List.any_cons]
      cases hne : nonempty_diff p.2 with
      | true =>
        simp only [hne, if_true, Bool.true_and]
        rw [ih, hinner]
        cases hs : (subs p.1).isEmpty with
        | true =>
          have : subs p.1 = [] := List.isEmpty_iff.mp hs
          simp [this]
        | false => simp [hs]
      | false =>
        simp only [hne, Bool.false_eq_true, if_false, Bool.false_and]
        rw [ih]
        simp
  rw [houter diffs []]
  simp

theorem njubs_main_wrote (subs : String → List String) (ts : String)
    (failAt : Option Nat) (old new : NSnapshot) :
    (njubs_main subs ts failAt old new).wrote =
      (!(build_user_recipients subs ts (diff_snapshots old new)).isEmpty
        || old.isEmpty) := by
  cases h1 : (build_user_recipients subs ts (diff_snapshots old new)).isEmpty with
  | false => simp [njubs_main, h1]
  | true =>
    cases h2 : old.isEmpty with
    | true => simp [njubs_main, h1, h2]
    | false => simp [njubs_main, h1, h2]

theorem njubs_main_persisted_cases (subs : String → List String) (ts : String)
    (failAt : Option Nat) (old new : NSnapshot) :
    (njubs_main subs ts failAt old new).persisted = new ∨
    ((njubs_main subs ts failAt old new).persisted = old ∧
      build_user_recipients subs ts (diff_snapshots old new) = [] ∧
      old.isEmpty = false) := by
  cases h1 : (build_user_recipients subs ts (diff_snapshots old new)).isEmpty with
  | false => left; simp [njubs_main, h1]
  | true =>
    cases h2 : old.isEmpty with
    | true => left; simp [njubs_main, h1, h2]
    | false =>
      right
      exact ⟨by simp [njubs_main, h1, h2], List.isEmpty_iff.mp h1, rfl⟩

theorem njubs_main_no_change (subs : String → List String) (ts : String)
    (failAt : Option Nat) (old new : NSnapshot)
    (hur : build_user_recipients subs ts (diff_snapshots old new) = [])
    (hold : old.isEmpty = false) :
    (njubs_main subs ts failAt old new).wrote = false ∧
    (njubs_main subs ts failAt old new).messages = [] := by
  constructor <;> simp [njubs_main, hur, hold]

theorem diff_snapshots_self (S : NSnapshot) :
    ∀ p ∈ diff_snapshots S S, p.2 = ⟨[], [], []⟩ := by
  intro p hp
  rw [diff_snapshots] at hp
  obtain ⟨q, _, hq⟩ := List.mem_map.mp hp
  rw [← hq]
  exact ndiff_self _

theorem build_self (subs : String → List String) (ts : String) (S : NSnapshot) :
    build_user_recipients subs ts (diff_snapshots S S) = [] := by
  have hany : (diff_snapshots S S).any
      (fun p => nonempty_diff p.2 && !(subs p.1).isEmpty) = false := by
    rw [List.any_eq_false]
    intro p hp
    rw [diff_snapshots_self S p hp]
    simp [nonempty_diff]
  rw [← List.isEmpty_iff, build_isEmpty, hany]
  rfl

theorem fetch_all_modules_count (parse : String → String → List NRec)
    (net : Nat → Option String) :
    ∀ (l : List (String × String)) (c : Nat),
      (fetch_all_modules_aux parse net l c).2 = c + l.length := by
  intro l
  induction l with
  | nil => intro c; simp [fetch_all_modules_aux]
  | cons p rest ih =>
    intro c
    have hstep : (fetch_all_modules_aux parse net (p :: rest) c).2 =
        (fetch_all_modules_aux parse net rest (c + 1)).2 := rfl
    rw [hstep, ih, List.length_cons]
    omega

theorem fetch_all_modules_nonempty (parse : String → String → List NRec)
    (net : Nat → Option String) :
    (fetch_all_modules parse net).1.isEmpty = false := rfl

/-- Claim C7 second-run lemma: two njubs.py runs against the same fetch
outcomes leave the second run with no snapshot write and no message. -/
theorem njubs_second_run (parse : String → String → List NRec)
    (net : Nat → Option String) (subs : String → List String) (ts : String)
    (fa1 fa2 : Option Nat) (old : NSnapshot) :
    (njubs_run parse net subs ts fa2
        (njubs_run parse net subs ts fa1 old).persisted).wrote = false ∧
    (njubs_run parse net subs ts fa2
        (njubs_run parse net subs ts fa1 old).persisted).messages = [] := by
  have hrun : ∀ o, (njubs_run parse net subs ts fa2 o).wrote =
      (njubs_main subs ts fa2 o (fetch_all_modules parse net).1).wrote ∧
      (njubs_run parse net subs ts fa2 o).messages =
      (njubs_main subs ts fa2 o (fetch_all_modules parse net).1).messages := by
    intro o; exact ⟨rfl, rfl⟩
  have hpersist : (njubs_run parse net subs ts fa1 old).persisted =
      (njubs_main subs ts fa1 old (fetch_all_modules parse net).1).persisted := rfl
  rw [(hrun _).1, (hrun _).2, hpersist]
  rcases njubs_main_persisted_cases subs ts fa1 old (fetch_all_modules parse net).1
    with h | ⟨h, hur, hold⟩
  · rw [h]
    exact njubs_main_no_change subs ts fa2 _ _
      (build_self subs ts _) (fetch_all_modules_nonempty parse net)
  · rw [h]
    exact njubs_main_no_change subs ts fa2 _ _ hur hold

theorem mem_added_ndiff {old new : List NRec} {r : NRec}
    (h : r ∈ (ndiffModule old new).added) :
    dmem (dictOf (fun x : NRec => x.url) old) r.url = false ∧
    dmem (dictOf (fun x : NRec => x.url) new) r.url = true := by
  simp only [ndiffModule] at h
  obtain ⟨p, hp, hpr⟩ := List.mem_map.mp h
  have hpf := List.mem_filter.mp hp
  obtain ⟨a, ha, hq⟩ := mem_dictOf hpf.1
  have h2 := hpf.2
  subst hq
  simp only at hpr
  subst hpr
  constructor
  · simpa using h2
  · rw [dmem_dictOf]
    exact List.any_eq_true.mpr ⟨a, ha, by simp⟩

theorem mem_removed_ndiff {old new : List NRec} {r : NRec}
    (h : r ∈ (ndiffModule old new).removed) :
    dmem (dictOf (fun x : NRec => x.url) new) r.url = false ∧
    dmem (dictOf (fun x : NRec => x.url) old) r.url = true := by
  simp only [ndiffModule] at h
  obtain ⟨p, hp, hpr⟩ := List.mem_map.mp h
  have hpf := List.mem_filter.mp hp
  obtain ⟨a, ha, hq⟩ := mem_dictOf hpf.1
  have h2 := hpf.2
  subst hq
  simp only at hpr
  subst hpr
  constructor
  · simpa using h2
  · rw [dmem_dictOf]
    exact List.any_eq_true.mpr ⟨a, ha, by simp⟩

theorem mem_changed_ndiff {old new : List NRec} {o n : NRec}
    (h : (o, n) ∈ (ndiffModule old new).changed) :
    o.url = n.url ∧
    dmem (dictOf (fun x : NRec => x.url) old) n.url = true ∧
    dmem (dictOf (fun x : NRec => x.url) new) n.url = true := by
  simp only [ndiffModule] at h
  obtain ⟨p, hp, hpeq⟩ := List.mem_filterMap.mp h
  obtain ⟨a, ha, hq⟩ := mem_dictOf hp
  subst hq
  simp only at hpeq
  cases hd : dget (dictOf (fun x : NRec => x.url) old) a.url with
  | none => rw [hd] at hpeq; exact absurd hpeq (by simp)
  | some o2 =>
    rw [hd] at hpeq
    change (if (o2.title != a.title) = true then some (o2, a) else none)
      = some (o, n) at hpeq
    by_cases ht : (o2.title != a.title) = true
    · rw [if_pos ht] at hpeq
      injection hpeq with h1
      injection h1 with h1a h1b
      have hmem := mem_of_dget hd
      obtain ⟨b, hb, hqb⟩ := mem_dictOf hmem
      injection hqb with hx hy
      refine ⟨?_, ?_, ?_⟩
      · rw [← h1a, ← h1b, hy]
        exact hx.symm
      · rw [← h1b, dmem, hd]
        rfl
      · rw [← h1b, dmem_dictOf]
        exact List.any_eq_true.mpr ⟨a, ha, by simp⟩
    · rw [if_neg ht] at hpeq
      exact absurd hpeq (by simp)

theorem ndiff_char (old new : List NRec)
    (hold : (old.map (fun r : NRec => r.url)).Nodup)
    (hnew : (new.map (fun r : NRec => r.url)).Nodup) :
    (ndiffModule old new).added =
      new.filter (fun r => !dmem (dictOf (fun x : NRec => x.url) old) r.url) ∧
    (ndiffModule old new).removed =
      old.filter (fun r => !dmem (dictOf (fun x : NRec => x.url) new) r.url) ∧
    (ndiffModule old new).changed =
      new.filterMap (fun r =>
        match dget (dictOf (fun x : NRec => x.url) old) r.url with
        | some o => if o.title != r.title then some (o, r) else none
        | none => none) := by
  have ho := dictOf_of_nodup (fun r : NRec => r.url) old hold
  have hn := dictOf_of_nodup (fun r : NRec => r.url) new hnew
  refine ⟨?_, ?_, ?_⟩
  · show ((dictOf (fun r : NRec => r.url) new).filter
        (fun p => !dmem (dictOf (fun r : NRec => r.url) old) p.1)).map Prod.snd = _
    rw [hn, List.filter_map, List.map_map]
    simp only [Function.comp_def]
    simp
  · show ((dictOf (fun r : NRec => r.url) old).filter
        (fun p => !dmem (dictOf (fun r : NRec => r.url) new) p.1)).map Prod.snd = _
    rw [ho, List.filter_map, List.map_map]
    simp only [Function.comp_def]
    simp
  · show (dictOf (fun r : NRec => r.url) new).filterMap (fun p =>
        match dget (dictOf (fun r : NRec => r.url) old) p.1 with
        | some o => if o.title != p.2.title then some (o, p.2) else none
        | none => none) = _
    rw [hn, List.filterMap_map]
    rfl

theorem changed_map_snd_sublist (e : List String → List String)
    (old new : List SRec) :
    ((sdiffModuleEnum e old new).changed.map Prod.snd).Sublist new := by
  have key : ∀ (f : SRec → Option (SRec × SRec)),
      (∀ it b, f it = some b → b.2 = it) →
      ∀ (l : List SRec), ((l.filterMap f).map Prod.snd).Sublist l := by
    intro f hf l
    induction l with
    | nil => simp
    | cons it l ih =>
      rw [List.filterMap_cons]
      cases hfi : f it with
      | none => exact List.Sublist.cons _ ih
      | some b =>
        rw [List.map_cons, hf it b hfi]
        exact List.Sublist.cons₂ _ ih
  show ((new.filterMap (fun it =>
      match dget (dictOf (fun r : SRec => r.href) old) it.href with
      | some oh => if oh.title != it.title || oh.date != it.date
                   then some (oh, it) else none
      | none => none)).map Prod.snd).Sublist new
  refine key _ ?_ new
  intro it b hb
  cases hd : dget (dictOf (fun r : SRec => r.href) old) it.href with
  | none =>
    rw [hd] at hb
    exact Option.noConfusion hb
  | some oh =>
    rw [hd] at hb
    change (if (oh.title != it.title || oh.date != it.date) = true
        then some (oh, it) else none) = some b at hb
    by_cases hc : (oh.title != it.title || oh.date != it.date) = true
    · rw [if_pos hc] at hb
      injection hb with hb1
      rw [← hb1]
    · rw [if_neg hc] at hb
      exact Option.noConfusion hb

theorem sdiff_changed_enum_free (e : List String → List String)
    (old new : List SRec) :
    (sdiffModuleEnum e old new).changed = (sdiffModule old new).changed := rfl

/-! ## The claims -/

/-- Claim C1 (code bug evaluation): the claim says a failed page fetch aborts the run before diffing, with no notification and no snapshot write. syxg.py behaves that way: with the request raising, the run keeps the old snapshot and sends nothing (first conjunct). njubs.py does not: get_page swallows the network error and returns an empty string, fetch_module turns that into an empty record list, and a run whose six requests all fail diffs those empty lists against the old snapshot, mails the subscriber a removal report and overwrites the snapshot with empty module lists (second conjunct). -/
theorem C1_fetch_failure_evaluated :
    (syxg_run none (fun _ => [("通知公告", [⟨"t", "h", "d", "x"⟩])]) true false
        [("通知公告", [⟨"t0", "h0", "d0", "x0"⟩])] =
      { fetches := 1, notified := false, wrote := false,
        persisted := [("通知公告", [⟨"t0", "h0", "d0", "x0"⟩])] }) ∧
    (njubs_run (fun _ _ => [⟨"X", "https://nubs.nju.edu.cn/x"⟩]) (fun _ => none)
        (fun m => if m == "notices" then ["a@b"] else []) "ts" none
        [("notices", [⟨"Old", "https://nubs.nju.edu.cn/old"⟩])] =
      { fetches := 6,
        messages := [("a@b",
          "### notices 更新 (ts) ###\n\n### notices ###\n- Old https://nubs.nju.edu.cn/old")],
        wrote := true,
        persisted := [("latest_updates", []), ("notices", []), ("events", []),
          ("procurement", []), ("viewpoints", []), ("announcements", [])] }) := by
  constructor
  · rfl
  · rfl

/-- Claim C2 (amended): a run that starts from an empty loaded snapshot always persists the fetched snapshot, in both variants. The never-notify half of the original claim is false, see the counterexample. -/
theorem C2_first_run_persists (subs : String → List String) (ts : String)
    (failAt : Option Nat) (new : NSnapshot) (html : String)
    (parse : String → SSnapshot) (cfgOk sendFails : Bool) :
    (njubs_main subs ts failAt [] new).wrote = true ∧
    (njubs_main subs ts failAt [] new).persisted = new ∧
    (syxg_run (some html) parse cfgOk sendFails []).wrote = true ∧
    (syxg_run (some html) parse cfgOk sendFails []).persisted = parse html := by
  refine ⟨?_, ?_, ?_, ?_⟩
  · rw [njubs_main_wrote]
    simp
  · rcases njubs_main_persisted_cases subs ts failAt [] new with h | ⟨_, _, hold⟩
    · exact h
    · exact absurd hold (by simp)
  · simp only [syxg_run]
    split
    · rfl
    · rfl
  · simp only [syxg_run]
    split
    · rfl
    · rfl

/-- Claim C2 counterexample: on a first run njubs.py does notify when a subscribed module has any fetched records, contradicting the claim that no notification is ever sent on a first run. -/
theorem C2_counterexample :
    (njubs_main (fun m => if m == "notices" then ["a@b"] else []) "ts" none []
        [("notices", [⟨"B", "https://x/2"⟩])]).messages ≠ [] := by decide

/-- Claim C3 (amended): in syxg.py a run with a nonempty diff persists the new snapshot for every delivery configuration and outcome; in njubs.py the snapshot is written exactly when some module with a nonempty diff has at least one subscriber, or the old snapshot is empty. -/
theorem C3_persistence :
    (∀ (html : String) (parse : String → SSnapshot) (cfgOk sendFails : Bool)
        (old : SSnapshot),
      old.isEmpty = false →
      has_change (diff_snapshots_syxg old (parse html)) = true →
      (syxg_run (some html) parse cfgOk sendFails old).wrote = true ∧
      (syxg_run (some html) parse cfgOk sendFails old).persisted = parse html) ∧
    (∀ (subs : String → List String) (ts : String) (failAt : Option Nat)
        (old new : NSnapshot),
      (njubs_main subs ts failAt old new).wrote =
        ((diff_snapshots old new).any
          (fun p => nonempty_diff p.2 && !(subs p.1).isEmpty) || old.isEmpty)) := by
  constructor
  · intro html parse cfgOk sendFails old _ hch
    constructor <;> simp [syxg_run, hch]
  · intro subs ts failAt old new
    rw [njubs_main_wrote, build_isEmpty]
    simp

/-- Witness for claim C3: a module removal with a nonempty prior snapshot, incomplete mail configuration and a failing send still persists in syxg.py. -/
theorem C3_witness :
    (([("通知公告", [(⟨"t0", "h0", "d0", "x0"⟩ : SRec)])] : SSnapshot).isEmpty = false ∧
      has_change (diff_snapshots_syxg
        [("通知公告", [(⟨"t0", "h0", "d0", "x0"⟩ : SRec)])]
        ((fun _ : String => ([] : SSnapshot)) "page")) = true) ∧
    ((syxg_run (some "page") (fun _ => ([] : SSnapshot)) false true
        [("通知公告", [(⟨"t0", "h0", "d0", "x0"⟩ : SRec)])]).wrote = true ∧
      (syxg_run (some "page") (fun _ => ([] : SSnapshot)) false true
        [("通知公告", [(⟨"t0", "h0", "d0", "x0"⟩ : SRec)])]).persisted =
        (fun _ : String => ([] : SSnapshot)) "page") :=
  ⟨⟨rfl, by decide⟩,
    C3_persistence.1 "page" (fun _ => ([] : SSnapshot)) false true
      [("通知公告", [(⟨"t0", "h0", "d0", "x0"⟩ : SRec)])] rfl (by decide)⟩

/-- Claim C3 counterexample: njubs.py does not persist the new snapshot when a module changed but no recipient subscribes to it, contradicting the claim that persistence is independent of the recipient configuration. -/
theorem C3_counterexample :
    ([("notices", [(⟨"Old", "https://x/old"⟩ : NRec)])] : NSnapshot).isEmpty = false ∧
    (diff_snapshots [("notices", [⟨"Old", "https://x/old"⟩])]
        [("notices", [⟨"New", "https://x/new"⟩])]).any
      (fun p => nonempty_diff p.2) = true ∧
    (njubs_main (fun _ => []) "ts" none
        [("notices", [⟨"Old", "https://x/old"⟩])]
        [("notices", [⟨"New", "https://x/new"⟩])]).wrote = false := by
  refine ⟨rfl, by decide, by decide⟩

/-- Claim C4 (amended): in njubs.py the three diff categories are all keyed by url, so one url never appears in two of them; in syxg.py, on the concrete scenario of the spec, added and removed are keyed by the content hash while changed is keyed by href, so the record whose date changed shows up in all three lists and the scenario diff is added = both new records, removed = the old record, changed = the pair. -/
theorem C4_diff_categories :
    (∀ (old new : List NRec) (a b : NRec),
      a ∈ (ndiffModule old new).added → b ∈ (ndiffModule old new).removed →
      a.url ≠ b.url) ∧
    (∀ (old new : List NRec) (a o n : NRec),
      a ∈ (ndiffModule old new).added → (o, n) ∈ (ndiffModule old new).changed →
      a.url ≠ n.url) ∧
    (∀ (old new : List NRec) (b o n : NRec),
      b ∈ (ndiffModule old new).removed → (o, n) ∈ (ndiffModule old new).changed →
      b.url ≠ o.url) ∧
    (sdiffModule
        [⟨"A", "http://x/1", "2024-01-01", item_hash "A" "http://x/1" "2024-01-01"⟩]
        [⟨"A", "http://x/1", "2024-01-02", item_hash "A" "http://x/1" "2024-01-02"⟩,
         ⟨"B", "http://x/2", "2024-01-03", item_hash "B" "http://x/2" "2024-01-03"⟩] =
      { added := [⟨"A", "http://x/1", "2024-01-02", item_hash "A" "http://x/1" "2024-01-02"⟩,
                  ⟨"B", "http://x/2", "2024-01-03", item_hash "B" "http://x/2" "2024-01-03"⟩],
        removed := [⟨"A", "http://x/1", "2024-01-01", item_hash "A" "http://x/1" "2024-01-01"⟩],
        changed := [(⟨"A", "http://x/1", "2024-01-01", item_hash "A" "http://x/1" "2024-01-01"⟩,
                     ⟨"A", "http://x/1", "2024-01-02", item_hash "A" "http://x/1" "2024-01-02"⟩)] }) := by
  refine ⟨?_, ?_, ?_, by decide⟩
  · intro old new a b ha hb he
    have h1 := (mem_added_ndiff ha).1
    have h2 := (mem_removed_ndiff hb).2
    rw [he] at h1
    rw [h1] at h2
    exact Bool.noConfusion h2
  · intro old new a o n ha hc he
    have h1 := (mem_added_ndiff ha).1
    have h2 := (mem_changed_ndiff hc).2.1
    rw [he] at h1
    rw [h1] at h2
    exact Bool.noConfusion h2
  · intro old new b o n hb hc he
    have h1 := (mem_removed_ndiff hb).1
    have h2 := (mem_changed_ndiff hc).2.2
    have h3 := (mem_changed_ndiff hc).1
    rw [he, h3] at h1
    rw [h1] at h2
    exact Bool.noConfusion h2

/-- Witness for claim C4: a concrete diff with one added, one removed and one changed record, on which the three url-disjointness statements apply. -/
theorem C4_witness :
    ((⟨"n", "b"⟩ : NRec) ∈
        (ndiffModule [⟨"o", "a"⟩, ⟨"p", "c"⟩] [⟨"n", "b"⟩, ⟨"q", "c"⟩]).added ∧
     (⟨"o", "a"⟩ : NRec) ∈
        (ndiffModule [⟨"o", "a"⟩, ⟨"p", "c"⟩] [⟨"n", "b"⟩, ⟨"q", "c"⟩]).removed ∧
     ((⟨"p", "c"⟩ : NRec), (⟨"q", "c"⟩ : NRec)) ∈
        (ndiffModule [⟨"o", "a"⟩, ⟨"p", "c"⟩] [⟨"n", "b"⟩, ⟨"q", "c"⟩]).changed) ∧
    ((⟨"n", "b"⟩ : NRec).url ≠ (⟨"o", "a"⟩ : NRec).url ∧
     (⟨"n", "b"⟩ : NRec).url ≠ (⟨"q", "c"⟩ : NRec).url ∧
     (⟨"o", "a"⟩ : NRec).url ≠ (⟨"p", "c"⟩ : NRec).url) := by
  have h1 : (⟨"n", "b"⟩ : NRec) ∈
      (ndiffModule [⟨"o", "a"⟩, ⟨"p", "c"⟩] [⟨"n", "b"⟩, ⟨"q", "c"⟩]).added := by decide
  have h2 : (⟨"o", "a"⟩ : NRec) ∈
      (ndiffModule [⟨"o", "a"⟩, ⟨"p", "c"⟩] [⟨"n", "b"⟩, ⟨"q", "c"⟩]).removed := by decide
  have h3 : ((⟨"p", "c"⟩ : NRec), (⟨"q", "c"⟩ : NRec)) ∈
      (ndiffModule [⟨"o", "a"⟩, ⟨"p", "c"⟩] [⟨"n", "b"⟩, ⟨"q", "c"⟩]).changed := by decide
  exact ⟨⟨h1, h2, h3⟩,
    C4_diff_categories.1 _ _ _ _ h1 h2,
    C4_diff_categories.2.1 _ _ _ _ _ h1 h3,
    C4_diff_categories.2.2.1 _ _ _ _ _ h2 h3⟩

/-- Claim C4 counterexample: on the spec scenario the syxg.py differ reports the date-changed record in removed, in changed and in added at once, while the claim demands changed only and removed empty. -/
theorem C4_counterexample :
    (⟨"A", "http://x/1", "2024-01-01", item_hash "A" "http://x/1" "2024-01-01"⟩ : SRec) ∈
      (sdiffModule
        [⟨"A", "http://x/1", "2024-01-01", item_hash "A" "http://x/1" "2024-01-01"⟩]
        [⟨"A", "http://x/1", "2024-01-02", item_hash "A" "http://x/1" "2024-01-02"⟩,
         ⟨"B", "http://x/2", "2024-01-03", item_hash "B" "http://x/2" "2024-01-03"⟩]).removed ∧
    ((⟨"A", "http://x/1", "2024-01-01", item_hash "A" "http://x/1" "2024-01-01"⟩ : SRec),
     (⟨"A", "http://x/1", "2024-01-02", item_hash "A" "http://x/1" "2024-01-02"⟩ : SRec)) ∈
      (sdiffModule
        [⟨"A", "http://x/1", "2024-01-01", item_hash "A" "http://x/1" "2024-01-01"⟩]
        [⟨"A", "http://x/1", "2024-01-02", item_hash "A" "http://x/1" "2024-01-02"⟩,
         ⟨"B", "http://x/2", "2024-01-03", item_hash "B" "http://x/2" "2024-01-03"⟩]).changed ∧
    (⟨"A", "http://x/1", "2024-01-02", item_hash "A" "http://x/1" "2024-01-02"⟩ : SRec) ∈
      (sdiffModule
        [⟨"A", "http://x/1", "2024-01-01", item_hash "A" "http://x/1" "2024-01-01"⟩]
        [⟨"A", "http://x/1", "2024-01-02", item_hash "A" "http://x/1" "2024-01-02"⟩,
         ⟨"B", "http://x/2", "2024-01-03", item_hash "B" "http://x/2" "2024-01-03"⟩]).added := by
  decide

/-- Claim C5 (amended): njubs.py load_snapshot returns the empty dict on an absent and on a malformed file alike; syxg.py returns the empty dict only when the file is absent. -/
theorem C5_load_tolerance :
    load_snapshot_njubs none = [] ∧
    load_snapshot_njubs (some none) = [] ∧
    load_snapshot_syxg none = Except.ok [] :=
  ⟨rfl, rfl, rfl⟩

/-- Claim C5 counterexample: a present but malformed snapshot file makes syxg.py load_snapshot raise out of json.load instead of returning the empty dict; main calls it outside any try, so the run dies. -/
theorem C5_counterexample :
    load_snapshot_syxg (some none) = Except.error "JSONDecodeError" ∧
    load_snapshot_syxg (some none) ≠ Except.ok ([] : SSnapshot) := by
  constructor
  · rfl
  · intro h
    exact Except.noConfusion h

/-- Claim C6: in the per-module routing of njubs.py each recipient is sent at most one message per run, its body joins with blank lines exactly the fragments of the changed modules that recipient subscribes to, and when no send fails every recipient with at least one such fragment receives that one message. -/
theorem C6_aggregated_delivery (subs : String → List String) (ts : String)
    (failAt : Option Nat) (old new : NSnapshot) (r : String)
    (hnodup : ∀ m, (subs m).Nodup) :
    ((njubs_main subs ts failAt old new).messages.map Prod.fst).Nodup ∧
    (∀ body, (r, body) ∈ (njubs_main subs ts failAt old new).messages →
      body = String.intercalate "\n\n"
        (expected_parts subs ts (diff_snapshots old new) r)) ∧
    (failAt = none →
      expected_parts subs ts (diff_snapshots old new) r ≠ [] →
      (r, String.intercalate "\n\n"
          (expected_parts subs ts (diff_snapshots old new) r))
        ∈ (njubs_main subs ts failAt old new).messages) := by
  have hurget : ∀ x, dget (build_user_recipients subs ts (diff_snapshots old new)) x =
      combine none (expected_parts subs ts (diff_snapshots old new) x) := by
    intro x
    rw [dget_build_user_recipients, gen_parts_of_nodup _ _ _ _ hnodup]
  have hkeys := keys_nodup_build subs ts (diff_snapshots old new)
  cases hbe : (build_user_recipients subs ts (diff_snapshots old new)).isEmpty with
  | true =>
    have hmsgs : (njubs_main subs ts failAt old new).messages = [] := by
      cases h2 : old.isEmpty with
      | true => simp [njubs_main, hbe, h2]
      | false => simp [njubs_main, hbe, h2]
    refine ⟨by simp [hmsgs], by simp [hmsgs], ?_⟩
    intro _ hne
    exfalso
    have hnil : build_user_recipients subs ts (diff_snapshots old new) = [] :=
      List.isEmpty_iff.mp hbe
    have hco := hurget r
    rw [hnil] at hco
    have hEfalse : (expected_parts subs ts (diff_snapshots old new) r).isEmpty = false :=
      Bool.eq_false_iff.mpr (fun h => hne (List.isEmpty_iff.mp h))
    simp only [dget, combine, hEfalse, Bool.false_eq_true, if_false] at hco
    exact Option.noConfusion hco
  | false =>
    have hmsgs : (njubs_main subs ts failAt old new).messages =
        send_email_combined failAt
          (build_user_recipients subs ts (diff_snapshots old new)) := by
      simp [njubs_main, hbe]
    have hfst : (Prod.fst ∘ fun p : String × List String =>
        (p.1, String.intercalate "\n\n" p.2)) = Prod.fst := rfl
    refine ⟨?_, ?_, ?_⟩
    · rw [hmsgs]
      cases failAt with
      | none =>
        simp only [send_email_combined, List.map_map, hfst]
        exact hkeys
      | some n =>
        simp only [send_email_combined]
        rw [List.map_take, List.map_map, hfst]
        exact List.Nodup.sublist (List.take_sublist _ _) hkeys
    · intro body hmem
      rw [hmsgs] at hmem
      have hmem2 : (r, body) ∈ (build_user_recipients subs ts
          (diff_snapshots old new)).map
          (fun p => (p.1, String.intercalate "\n\n" p.2)) := by
        cases failAt with
        | none => exact hmem
        | some n =>
          simp only [send_email_combined] at hmem
          exact List.mem_of_mem_take hmem
      obtain ⟨p, hp, hfp⟩ := List.mem_map.mp hmem2
      injection hfp with hp1 hp2
      have h3 : combine none (expected_parts subs ts (diff_snapshots old new) r)
          = some p.2 := by
        rw [← hurget r, ← hp1]
        exact dget_of_mem_nodup hkeys hp
      cases hE : expected_parts subs ts (diff_snapshots old new) r with
      | nil =>
        rw [hE] at h3
        simp only [combine, List.isEmpty_nil, if_true] at h3
        exact Option.noConfusion h3
      | cons e es =>
        rw [hE] at h3
        simp only [combine, List.isEmpty_cons, Bool.false_eq_true, if_false] at h3
        injection h3 with h4
        rw [← hp2, ← h4]
    · intro hfa hne
      have hEfalse : (expected_parts subs ts (diff_snapshots old new) r).isEmpty = false :=
        Bool.eq_false_iff.mpr (fun h => hne (List.isEmpty_iff.mp h))
      have hsome : dget (build_user_recipients subs ts (diff_snapshots old new)) r =
          some (expected_parts subs ts (diff_snapshots old new) r) := by
        rw [hurget r]
        simp only [combine, hEfalse, Bool.false_eq_true, if_false]
      have hmem := mem_of_dget hsome
      rw [hmsgs, hfa]
      simp only [send_email_combined]
      exact List.mem_map.mpr ⟨_, hmem, rfl⟩

/-- Witness for claim C6: a recipient subscribed to two changed modules and another subscribed to one, with duplicate-free subscription lists. -/
theorem C6_witness :
    (∀ m, ((fun m : String => if m == "latest_updates" then ["u", "v"]
        else if m == "notices" then ["u"] else []) m).Nodup) ∧
    (((njubs_main (fun m : String => if m == "latest_updates" then ["u", "v"]
          else if m == "notices" then ["u"] else []) "ts" none []
          [("latest_updates", [⟨"L", "https://x/L"⟩]),
           ("notices", [⟨"N", "https://x/N"⟩])]).messages.map Prod.fst).Nodup ∧
      (∀ body, ("u", body) ∈ (njubs_main (fun m : String =>
            if m == "latest_updates" then ["u", "v"]
            else if m == "notices" then ["u"] else []) "ts" none []
            [("latest_updates", [⟨"L", "https://x/L"⟩]),
             ("notices", [⟨"N", "https://x/N"⟩])]).messages →
        body = String.intercalate "\n\n"
          (expected_parts (fun m : String => if m == "latest_updates" then ["u", "v"]
            else if m == "notices" then ["u"] else []) "ts"
            (diff_snapshots []
              [("latest_updates", [⟨"L", "https://x/L"⟩]),
               ("notices", [⟨"N", "https://x/N"⟩])]) "u")) ∧
      ((none : Option Nat) = none →
        expected_parts (fun m : String => if m == "latest_updates" then ["u", "v"]
            else if m == "notices" then ["u"] else []) "ts"
          (diff_snapshots []
            [("latest_updates", [⟨"L", "https://x/L"⟩]),
             ("notices", [⟨"N", "https://x/N"⟩])]) "u" ≠ [] →
        ("u", String.intercalate "\n\n"
          (expected_parts (fun m : String => if m == "latest_updates" then ["u", "v"]
            else if m == "notices" then ["u"] else []) "ts"
            (diff_snapshots []
              [("latest_updates", [⟨"L", "https://x/L"⟩]),
               ("notices", [⟨"N", "https://x/N"⟩])]) "u"))
          ∈ (njubs_main (fun m : String => if m == "latest_updates" then ["u", "v"]
              else if m == "notices" then ["u"] else []) "ts" none []
              [("latest_updates", [⟨"L", "https://x/L"⟩]),
               ("notices", [⟨"N", "https://x/N"⟩])]).messages)) := by
  have hW : ∀ m, ((fun m : String => if m == "latest_updates" then ["u", "v"]
      else if m == "notices" then ["u"] else []) m).Nodup := by
    intro m
    dsimp only
    split
    · decide
    · split
      · decide
      · decide
  exact ⟨hW, C6_aggregated_delivery
    (fun m : String => if m == "latest_updates" then ["u", "v"]
      else if m == "notices" then ["u"] else []) "ts" none []
    [("latest_updates", [⟨"L", "https://x/L"⟩]),
     ("notices", [⟨"N", "https://x/N"⟩])] "u" hW⟩

/-- Claim C7 (amended): the njubs.py differ is empty on identical snapshots, and a second njubs.py run over unchanged fetch outcomes writes nothing and sends nothing; the syxg.py differ on identical inputs has empty added and removed lists, but its changed list can be nonempty, see the counterexample. -/
theorem C7_idempotent :
    (∀ (l : List NRec), ndiffModule l l = ⟨[], [], []⟩) ∧
    (∀ (l : List SRec), (sdiffModule l l).added = [] ∧ (sdiffModule l l).removed = []) ∧
    (∀ (parse : String → String → List NRec) (net : Nat → Option String)
        (subs : String → List String) (ts : String) (fa1 fa2 : Option Nat)
        (old : NSnapshot),
      (njubs_run parse net subs ts fa2
          (njubs_run parse net subs ts fa1 old).persisted).wrote = false ∧
      (njubs_run parse net subs ts fa2
          (njubs_run parse net subs ts fa1 old).persisted).messages = []) :=
  ⟨ndiff_self, sdiff_self_added_removed,
    fun parse net subs ts fa1 fa2 old => njubs_second_run parse net subs ts fa1 fa2 old⟩

/-- Claim C7 counterexample: a syxg.py module list repeating one href with two titles makes diff of a snapshot against itself report a change, so the second run over unchanged content notifies and persists again. -/
theorem C7_counterexample :
    (syxg_run (some "page")
        (fun _ => [("通知公告", [⟨"t1", "h", "d", "x1"⟩, ⟨"t2", "h", "d", "x2"⟩])])
        true false
        (syxg_run (some "page")
          (fun _ => [("通知公告", [⟨"t1", "h", "d", "x1"⟩, ⟨"t2", "h", "d", "x2"⟩])])
          true false []).persisted).notified = true ∧
    (syxg_run (some "page")
        (fun _ => [("通知公告", [⟨"t1", "h", "d", "x1"⟩, ⟨"t2", "h", "d", "x2"⟩])])
        true false
        (syxg_run (some "page")
          (fun _ => [("通知公告", [⟨"t1", "h", "d", "x1"⟩, ⟨"t2", "h", "d", "x2"⟩])])
          true false []).persisted).wrote = true ∧
    (sdiffModule [⟨"t1", "h", "d", "x1"⟩, ⟨"t2", "h", "d", "x2"⟩]
        [⟨"t1", "h", "d", "x1"⟩, ⟨"t2", "h", "d", "x2"⟩]).changed ≠ [] := by
  refine ⟨by decide, by decide, by decide⟩

/-- Claim C8 (amended): a syxg.py run performs exactly one page fetch, but an njubs.py run performs one fetch per configured module, six in total, because fetch_module calls get_page itself. -/
theorem C8_fetch_counts :
    (∀ (parse : String → String → List NRec) (net : Nat → Option String)
        (subs : String → List String) (ts : String) (failAt : Option Nat)
        (old : NSnapshot),
      (njubs_run parse net subs ts failAt old).fetches = 6) ∧
    (∀ (net : Option String) (parse : String → SSnapshot) (cfgOk sendFails : Bool)
        (old : SSnapshot),
      (syxg_run net parse cfgOk sendFails old).fetches = 1) := by
  constructor
  · intro parse net subs ts failAt old
    have h : (njubs_run parse net subs ts failAt old).fetches =
        (fetch_all_modules_aux parse net MODULE_IDS 0).2 := rfl
    rw [h, fetch_all_modules_count]
    decide
  · intro net parse cfgOk sendFails old
    cases net with
    | none => rfl
    | some html =>
      simp only [syxg_run]
      split
      · rfl
      · split
        · rfl
        · rfl

/-- Claim C8 counterexample: a concrete njubs.py run issues six HTTP requests, not one. -/
theorem C8_counterexample :
    (njubs_run (fun _ _ => []) (fun _ => some "doc") (fun _ => []) "ts" none
      []).fetches = 6 ∧
    (njubs_run (fun _ _ => []) (fun _ => some "doc") (fun _ => []) "ts" none
      []).fetches ≠ 1 := by decide

/-- Claim C9 (amended): the changed list of the syxg.py differ is independent of the set iteration order and follows the record order of the new snapshot; the njubs.py differ is a function of its inputs with added in new-side order, removed in old-side order and changed in new-side key order, stated here for duplicate-free url lists. -/
theorem C9_diff_order :
    (∀ (e : List String → List String) (old new : List SRec),
      (sdiffModuleEnum e old new).changed = (sdiffModule old new).changed) ∧
    (∀ (e : List String → List String) (old new : List SRec),
      ((sdiffModuleEnum e old new).changed.map Prod.snd).Sublist new) ∧
    (∀ (old new : List NRec),
      (old.map (fun r : NRec => r.url)).Nodup →
      (new.map (fun r : NRec => r.url)).Nodup →
      (ndiffModule old new).added =
        new.filter (fun r => !dmem (dictOf (fun x : NRec => x.url) old) r.url) ∧
      (ndiffModule old new).removed =
        old.filter (fun r => !dmem (dictOf (fun x : NRec => x.url) new) r.url) ∧
      (ndiffModule old new).changed =
        new.filterMap (fun r =>
          match dget (dictOf (fun x : NRec => x.url) old) r.url with
          | some o => if o.title != r.title then some (o, r) else none
          | none => none)) :=
  ⟨fun _ _ _ => rfl, changed_map_snd_sublist, ndiff_char⟩

/-- Witness for claim C9: the njubs.py order characterization applied to concrete one-record snapshots. -/
theorem C9_witness :
    ((([(⟨"o", "a"⟩ : NRec)]).map (fun r : NRec => r.url)).Nodup ∧
     (([(⟨"n", "b"⟩ : NRec)]).map (fun r : NRec => r.url)).Nodup) ∧
    ((ndiffModule [(⟨"o", "a"⟩ : NRec)] [(⟨"n", "b"⟩ : NRec)]).added =
        [(⟨"n", "b"⟩ : NRec)].filter
          (fun r => !dmem (dictOf (fun x : NRec => x.url) [(⟨"o", "a"⟩ : NRec)]) r.url) ∧
     (ndiffModule [(⟨"o", "a"⟩ : NRec)] [(⟨"n", "b"⟩ : NRec)]).removed =
        [(⟨"o", "a"⟩ : NRec)].filter
          (fun r => !dmem (dictOf (fun x : NRec => x.url) [(⟨"n", "b"⟩ : NRec)]) r.url) ∧
     (ndiffModule [(⟨"o", "a"⟩ : NRec)] [(⟨"n", "b"⟩ : NRec)]).changed =
        [(⟨"n", "b"⟩ : NRec)].filterMap (fun r =>
          match dget (dictOf (fun x : NRec => x.url) [(⟨"o", "a"⟩ : NRec)]) r.url with
          | some o => if o.title != r.title then some (o, r) else none
          | none => none)) :=
  ⟨⟨by decide, by decide⟩,
    C9_diff_order.2.2 [⟨"o", "a"⟩] [⟨"n", "b"⟩] (by decide) (by decide)⟩

/-- Claim C9 counterexample: two legitimate iteration orders of the same key set, identity and reversal, give differently ordered added lists in syxg.py, so the added order is not determined by the diff inputs. -/
theorem C9_counterexample :
    (["h1", "h2"].reverse).Perm ["h1", "h2"] ∧
    (sdiffModuleEnum List.reverse []
        [⟨"a", "u1", "d1", "h1"⟩, ⟨"b", "u2", "d2", "h2"⟩]).added ≠
      (sdiffModuleEnum id []
        [⟨"a", "u1", "d1", "h1"⟩, ⟨"b", "u2", "d2", "h2"⟩]).added := by
  constructor
  · exact List.reverse_perm _
  · decide

/-- Claim C10 (amended): the njubs.py differ depends on its inputs only through the url-keyed last-wins dicts, the syxg.py added and removed lists only through the hash-keyed last-wins dicts, and in such a dict the last record with a key is the one retrieved; but the syxg.py changed list iterates the raw new list, see the counterexample. -/
theorem C10_identity_maps :
    (∀ (old new old2 new2 : List NRec),
      dictOf (fun r : NRec => r.url) old = dictOf (fun r : NRec => r.url) old2 →
      dictOf (fun r : NRec => r.url) new = dictOf (fun r : NRec => r.url) new2 →
      ndiffModule old new = ndiffModule old2 new2) ∧
    (∀ (e : List String → List String) (old new old2 new2 : List SRec),
      dictOf (fun r : SRec => r.hash) old = dictOf (fun r : SRec => r.hash) old2 →
      dictOf (fun r : SRec => r.hash) new = dictOf (fun r : SRec => r.hash) new2 →
      (sdiffModuleEnum e old new).added = (sdiffModuleEnum e old2 new2).added ∧
      (sdiffModuleEnum e old new).removed = (sdiffModuleEnum e old2 new2).removed) ∧
    (∀ (l : List NRec) (a : NRec),
      dget (dictOf (fun r : NRec => r.url) (l ++ [a])) a.url = some a) := by
  refine ⟨?_, ?_, ?_⟩
  · intro old new old2 new2 h1 h2
    simp only [ndiffModule, h1, h2]
  · intro e old new old2 new2 h1 h2
    constructor
    · simp only [sdiffModuleEnum, h1, h2]
    · simp only [sdiffModuleEnum, h1, h2]
  · intro l a
    exact dget_dictOf_append_last (fun r : NRec => r.url) l a

/-- Witness for claim C10: dropping an earlier url-duplicate leaves the url dict, and hence the njubs.py diff, unchanged. -/
theorem C10_witness :
    (dictOf (fun r : NRec => r.url) [⟨"t", "u"⟩, ⟨"s", "u"⟩] =
       dictOf (fun r : NRec => r.url) [⟨"s", "u"⟩] ∧
     dictOf (fun r : NRec => r.url) ([] : List NRec) =
       dictOf (fun r : NRec => r.url) ([] : List NRec)) ∧
    ndiffModule [⟨"t", "u"⟩, ⟨"s", "u"⟩] [] = ndiffModule [⟨"s", "u"⟩] [] :=
  ⟨⟨by decide, rfl⟩, C10_identity_maps.1 _ _ _ _ (by decide) rfl⟩

/-- Claim C10 counterexample: a new-side list holding the same record twice makes the syxg.py differ report the changed pair twice, so the earlier duplicate does participate in the diff. -/
theorem C10_counterexample :
    (sdiffModule [⟨"t1", "h", "d", "x1"⟩]
        [⟨"t2", "h", "d", "x2"⟩, ⟨"t2", "h", "d", "x2"⟩]).changed =
      [(⟨"t1", "h", "d", "x1"⟩, ⟨"t2", "h", "d", "x2"⟩),
       (⟨"t1", "h", "d", "x1"⟩, ⟨"t2", "h", "d", "x2"⟩)] ∧
    (sdiffModule [⟨"t1", "h", "d", "x1"⟩]
        [⟨"t2", "h", "d", "x2"⟩, ⟨"t2", "h", "d", "x2"⟩]).changed.length ≠ 1 := by
  decide

end NJUBSwatcher
